import Mathlib

/-!
A shallow embedding of `src/FileName.cpp` (class `TextEditor`)

Modelling conventions.

* `std::string` is a list of characters (`Str`), `std::vector<std::string>` a list of `Str`.
* The `int` members `cursorX`, `cursorY` and the `int` parameters of `moveCursor` are carried
  by `Int`.  The additions `cursorY += dy` and `cursorX += dx` of `moveCursor` are 32-bit:
  `addInt` wraps the sum of two `int` values to the range `-2^31 .. 2^31 - 1`, as the machine
  does.  A comparison of an `int` with a `size_t` converts the `int` to an unsigned value, so a
  negative `int` compares greater than every size: the guards below spell this out.
* A member function that can throw `std::out_of_range` or index a vector out of bounds returns
  `Option TextEditor`, with `none` for "no resulting state".
* `find` and `replace` return the new state together with the message handed to `showMessage`
  (`none` when `showMessage` is not called).
* `openFile` takes the outcome of opening and reading the file as an argument: `none` when the
  stream cannot be opened, otherwise the lines read.
* `highlightSyntax` returns the sequence of terminal calls (`attron`, `attroff`, `addch`,
  `printw`) it issues, in order.  In the source text the braces of this function do not
  balance: the `else` block of the word test is closed before the last `addch(c)` of the loop
  body, and the block that prints a pending word stands after the brace that would close the
  function.  `highlightSyntax` follows the text as written for the loop body and keeps the
  final block inside the function; `highlightSyntaxNested` is the reading in which `addch(c)`
  belongs to the `else` block.
* `paint` turns the calls into coloured screen cells, following the colour pair in force.
-/

namespace Editor

/-- The model of `std::string`. -/
abbrev Str := List Char

/-! ## `std::string` primitives -/

/-- The scan behind `std::string::find`: `l` is the part of the line from index `i` on; the
result is the first index at which `term` starts. -/
def findAux (term : Str) : Str → Nat → Option Nat
  | [], i => if term.isEmpty then some i else none
  | c :: l, i => if term.isPrefixOf (c :: l) then some i else findAux term l (i + 1)

/-- The call `line.find(term, pos)` with `pos` a `size_t`: the lowest index `i ≥ pos` at which
`term` occurs in `line`, `none` for `npos`. -/
def strFind (line term : Str) (pos : Nat) : Option Nat :=
  if pos ≤ line.length then findAux term (line.drop pos) pos else none

/-- The call `line.find(term, cursorX)` with `cursorX` an `int`: a negative value converts to a
`size_t` beyond every length, for which `find` answers `npos`. -/
def strFindInt (line term : Str) (x : Int) : Option Nat :=
  if x < 0 then none else strFind line term x.toNat

/-- The call `line.replace(pos, n, r)` for `pos ≤ line.size()`. -/
def strReplace (line : Str) (pos n : Nat) (r : Str) : Str :=
  line.take pos ++ r ++ line.drop (pos + n)

/-! ## 32-bit `int` arithmetic -/

/-- The values of a 32-bit `int`. -/
def inInt (v : Int) : Prop := -2147483648 ≤ v ∧ v ≤ 2147483647

instance (v : Int) : Decidable (inInt v) := by
  unfold inInt; infer_instance

/-- The two's-complement value of an integer cut to 32 bits. -/
def wrap32 (v : Int) : Int := (v + 2147483648) % 4294967296 - 2147483648

/-- The addition `a += b` of two `int` values: the sum, wrapped to 32 bits.  Operands that are
not values of an `int`, which the code cannot hold, are added as integers. -/
def addInt (a b : Int) : Int := if inInt a ∧ inInt b then wrap32 (a + b) else a + b

/-! ## The editor state -/

/-- The data members of `TextEditor` that the editing operations read or write. -/
structure TextEditor where
  buffer : List Str
  filename : Str
  cursorX : Int
  cursorY : Int
  modified : Bool
  deriving DecidableEq, Repr

namespace TextEditor

/-- The constructor `TextEditor()`: one empty line, cursor at the origin, not modified. -/
def init : TextEditor :=
  { buffer := [[]], filename := [], cursorX := 0, cursorY := 0, modified := false }

/-- The guard `cursorY >= buffer.size()` (an `int` against a `size_t`). -/
def rowOutOfRange (s : TextEditor) : Prop :=
  s.cursorY < 0 ∨ (s.buffer.length : Int) ≤ s.cursorY

instance (s : TextEditor) : Decidable s.rowOutOfRange := by
  unfold rowOutOfRange; infer_instance

/-- The expression `buffer[cursorY]` for a row in range. -/
def curLine (s : TextEditor) : Str := s.buffer.getD s.cursorY.toNat []

/-- The member `insertChar(char c)`. -/
def insertChar (s : TextEditor) (c : Char) : Option TextEditor :=
  if s.rowOutOfRange then some s
  else if s.cursorX < 0 ∨ (s.curLine.length : Int) < s.cursorX then none
  else
    let y := s.cursorY.toNat
    let x := s.cursorX.toNat
    if c = '\n' then
      let newLine := s.curLine.drop x
      let buffer1 := s.buffer.set y (s.curLine.take x)
      some { s with
        buffer := buffer1.insertIdx (y + 1) newLine
        cursorY := s.cursorY + 1
        cursorX := 0
        modified := true }
    else
      some { s with
        buffer := s.buffer.set y (s.curLine.take x ++ c :: s.curLine.drop x)
        cursorX := s.cursorX + 1
        modified := true }

/-- The member `deleteChar()`. -/
def deleteChar (s : TextEditor) : Option TextEditor :=
  if s.rowOutOfRange then some s
  else if 0 < s.cursorX then
    if (s.curLine.length : Int) < s.cursorX - 1 then none
    else
      some { s with
        buffer := s.buffer.set s.cursorY.toNat (s.curLine.eraseIdx (s.cursorX - 1).toNat)
        cursorX := s.cursorX - 1
        modified := true }
  else if 0 < s.cursorY then
    let y := s.cursorY.toNat
    let prev := s.buffer.getD (y - 1) []
    some { s with
      cursorX := (prev.length : Int)
      buffer := (s.buffer.set (y - 1) (prev ++ s.curLine)).eraseIdx y
      cursorY := s.cursorY - 1
      modified := true }
  else some { s with modified := true }

/-- The member `moveCursor(int dx, int dy)`.  On an empty buffer the code reads `buffer[-1]`. -/
def moveCursor (s : TextEditor) (dx dy : Int) : Option TextEditor :=
  if s.buffer = [] then none
  else
    let y0 := addInt s.cursorY dy
    let y1 := if y0 < 0 then 0 else y0
    let y2 := if (s.buffer.length : Int) ≤ y1 then (s.buffer.length : Int) - 1 else y1
    let x0 := addInt s.cursorX dx
    let x1 := if x0 < 0 then 0 else x0
    let len : Int := ((s.buffer.getD y2.toNat []).length : Int)
    let x2 := if len < x1 then len else x1
    some { s with cursorY := y2, cursorX := x2 }

/-- The text handed to `showMessage` by `find` and `replace` when nothing matches. -/
def notFoundMsg (term : Str) : Str := "Pattern not found: ".toList ++ term

/-- The loop of `find`: `y` is the loop variable, `n` the number of iterations left
(`buffer.size() - y`).  The result is the pair `(y, pos)` of the first hit. -/
def findLoop (buffer : List Str) (term : Str) (cursorX cursorY : Int) :
    Nat → Nat → Option (Nat × Nat)
  | 0, _ => none
  | n + 1, y =>
    let pos :=
      if (y : Int) = cursorY then strFindInt (buffer.getD y []) term cursorX
      else strFind (buffer.getD y []) term 0
    match pos with
    | some p => some (y, p)
    | none => findLoop buffer term cursorX cursorY n (y + 1)

/-- The whole scan of `find`: the loop started at `y = cursorY`; a negative `cursorY` fails the
test `y < buffer.size()` at once. -/
def findScan (s : TextEditor) (term : Str) : Option (Nat × Nat) :=
  if s.cursorY < 0 then none
  else findLoop s.buffer term s.cursorX s.cursorY
    (s.buffer.length - s.cursorY.toNat) s.cursorY.toNat

/-- The member `find(term)`: the state afterwards and the message shown, if any. -/
def find (s : TextEditor) (term : Str) : TextEditor × Option Str :=
  match s.findScan term with
  | some (y, p) => ({ s with cursorY := (y : Int), cursorX := (p : Int) }, none)
  | none => (s, some (notFoundMsg term))

/-- The member `replace(term, replacement)`: the state afterwards and the message shown. -/
def replace (s : TextEditor) (term replacement : Str) : TextEditor × Option Str :=
  if s.rowOutOfRange then (s, none)
  else
    match strFindInt s.curLine term s.cursorX with
    | some pos =>
      ({ s with
          buffer := s.buffer.set s.cursorY.toNat
            (strReplace s.curLine pos term.length replacement)
          cursorX := (pos : Int) + (replacement.length : Int)
          modified := true }, none)
    | none => (s, some (notFoundMsg term))

/-- The member `openFile(file)`.  The file system is a parameter: `content` is `none` when the
stream fails to open, and otherwise the lines that the `getline` loop reads, in order.  The
cursor members are not touched. -/
def openFile (s : TextEditor) (file : Str) (content : Option (List Str)) : TextEditor :=
  match content with
  | none => { s with filename := file, buffer := ["// New file - ".toList ++ file] }
  | some ls =>
    { s with filename := file, buffer := if ls = [] then [[]] else ls, modified := false }

/-- The operations of the editing state machine. -/
inductive Op where
  | insertChar (c : Char)
  | deleteChar
  | moveCursor (dx dy : Int)
  | find (term : Str)
  | replace (term replacement : Str)

/-- One operation applied to a state; `none` when the member function has no resulting state. -/
def applyOp (s : TextEditor) : Op → Option TextEditor
  | .insertChar c => s.insertChar c
  | .deleteChar => s.deleteChar
  | .moveCursor dx dy => s.moveCursor dx dy
  | .find term => some (s.find term).1
  | .replace term r => some (s.replace term r).1

/-- The cursor invariant: `0 ≤ row < lines.length` and `0 ≤ column ≤ lines[row].length`. -/
def WF (s : TextEditor) : Prop :=
  0 ≤ s.cursorY ∧ s.cursorY < (s.buffer.length : Int) ∧
  0 ≤ s.cursorX ∧ s.cursorX ≤ (s.curLine.length : Int)

instance (s : TextEditor) : Decidable s.WF := by
  unfold WF; infer_instance

end TextEditor

/-! ## The syntax highlighter -/

/-- The enumeration `ColorPair`. -/
inductive ColorPair where
  | DEFAULT
  | KEYWORD
  | COMMENT
  | STRING
  deriving DecidableEq, Repr

/-- A terminal call issued by `highlightSyntax`. -/
inductive Call where
  | attron (p : ColorPair)
  | attroff (p : ColorPair)
  | addch (c : Char)
  | printw (w : Str)
  deriving DecidableEq, Repr

/-- The text a call writes to the screen. -/
def Call.text : Call → Str
  | .addch c => [c]
  | .printw w => w
  | _ => []

/-- The static table `keywords`. -/
def keywords : List Str :=
  ["class".toList, "const".toList, "for".toList, "if".toList, "int".toList, "return".toList,
   "void".toList, "while".toList, "else".toList, "true".toList, "false".toList]

/-- The test `isalnum(c) || c == '_'`. -/
def isWordChar (c : Char) : Bool := c.isAlphanum || c == '_'

/-- The local variables of `highlightSyntax` together with the calls issued so far. -/
structure HL where
  inComment : Bool
  inString : Bool
  word : Str
  out : List Call
  deriving DecidableEq, Repr

/-- The block that prints a pending word: under `KEYWORD` when it is in the table, bare
otherwise; then `word.clear()`.  The caller has checked `!word.empty()`. -/
def flushWord (st : HL) : HL :=
  if st.word ∈ keywords then
    { st with
      out := st.out ++ [.attron .KEYWORD, .printw st.word, .attroff .KEYWORD]
      word := [] }
  else
    { st with out := st.out ++ [.printw st.word], word := [] }

/-- One iteration of the loop of `highlightSyntax` at character `c`, where `prev` is
`line[i - 1]` (`none` when `i = 0`).  The call `addch(c)` that ends the iteration stands after
the closing brace of the `else` block, so it runs for word characters and for the others. -/
def hlStep (st : HL) (prev : Option Char) (c : Char) : HL :=
  if c = '"' ∧ st.inComment = false then
    if st.inString then
      { st with
        out := st.out ++ [.attron .STRING, .addch c, .attroff .STRING]
        inString := false }
    else
      { st with inString := true, out := st.out ++ [.attron .STRING, .addch c] }
  else
    let st1 : HL :=
      if prev = some '/' ∧ c = '/' ∧ st.inString = false then { st with inComment := true }
      else st
    if st1.inComment then
      { st1 with out := st1.out ++ [.attron .COMMENT, .addch c, .attroff .COMMENT] }
    else if st1.inString then
      { st1 with out := st1.out ++ [.attron .STRING, .addch c, .attroff .STRING] }
    else
      let st2 : HL :=
        if isWordChar c then { st1 with word := st1.word ++ [c] }
        else if st1.word ≠ [] then flushWord st1
        else st1
      { st2 with out := st2.out ++ [.addch c] }

/-- The loop of `highlightSyntax` over the characters still to be read. -/
def hlLoop : HL → Option Char → Str → HL
  | st, _, [] => st
  | st, prev, c :: rest => hlLoop (hlStep st prev c) (some c) rest

/-- The member `highlightSyntax(lineNum, line)`: the calls it issues, in order.  The block
after the loop prints a word still pending at the end of the line. -/
def highlightSyntax (line : Str) : List Call :=
  if line = [] then []
  else
    let st := hlLoop { inComment := false, inString := false, word := [], out := [] } none line
    if st.word ≠ [] then (flushWord st).out else st.out

/-- The loop iteration under the other reading of the closing braces at the end of the loop
body (the braces of `highlightSyntax` do not balance in the source text): here `addch(c)` is the
last statement of the `else` block, so a word character is appended to `word` and not written
by this iteration. -/
def hlStepNested (st : HL) (prev : Option Char) (c : Char) : HL :=
  if c = '"' ∧ st.inComment = false then
    if st.inString then
      { st with
        out := st.out ++ [.attron .STRING, .addch c, .attroff .STRING]
        inString := false }
    else
      { st with inString := true, out := st.out ++ [.attron .STRING, .addch c] }
  else
    let st1 : HL :=
      if prev = some '/' ∧ c = '/' ∧ st.inString = false then { st with inComment := true }
      else st
    if st1.inComment then
      { st1 with out := st1.out ++ [.attron .COMMENT, .addch c, .attroff .COMMENT] }
    else if st1.inString then
      { st1 with out := st1.out ++ [.attron .STRING, .addch c, .attroff .STRING] }
    else if isWordChar c then { st1 with word := st1.word ++ [c] }
    else
      let st2 : HL := if st1.word ≠ [] then flushWord st1 else st1
      { st2 with out := st2.out ++ [.addch c] }

/-- The loop of `highlightSyntax` with `hlStepNested` as its body. -/
def hlLoopNested : HL → Option Char → Str → HL
  | st, _, [] => st
  | st, prev, c :: rest => hlLoopNested (hlStepNested st prev c) (some c) rest

/-- The member `highlightSyntax` with `hlStepNested` as the loop body. -/
def highlightSyntaxNested (line : Str) : List Call :=
  if line = [] then []
  else
    let st :=
      hlLoopNested { inComment := false, inString := false, word := [], out := [] } none line
    if st.word ≠ [] then (flushWord st).out else st.out

/-- The characters written to the screen by a sequence of calls, in order. -/
def emitted (calls : List Call) : Str := (calls.map Call.text).flatten

/-! ## Specification vocabulary -/

/-- The string `term` occurs in `line` at index `i`: `line[i .. i + |term|) = term`. -/
def OccursAt (line term : Str) (i : Nat) : Prop :=
  i + term.length ≤ line.length ∧ (line.drop i).take term.length = term

instance (line term : Str) (i : Nat) : Decidable (OccursAt line term i) := by
  unfold OccursAt; infer_instance

/-- An occurrence of `term` that a forward search from the cursor of `s` may report: at index
`p` of row `r`, where `r` is the cursor row or a later one, and `p` is not before the cursor
column when `r` is the cursor row. -/
def ForwardMatch (s : TextEditor) (term : Str) (r p : Nat) : Prop :=
  s.cursorY ≤ (r : Int) ∧ r < s.buffer.length ∧ OccursAt (s.buffer.getD r []) term p ∧
    ((r : Int) = s.cursorY → s.cursorX ≤ (p : Int))

instance (s : TextEditor) (term : Str) (r p : Nat) : Decidable (ForwardMatch s term r p) := by
  unfold ForwardMatch; infer_instance

/-- The value `clamp(v, lo, hi)`: `v` snapped to the nearest bound of `[lo, hi]`. -/
def clamp (v lo hi : Int) : Int := if v < lo then lo else if hi < v then hi else v

/-- The search that one iteration of the loop of `find` does on row `y`. -/
def rowFind (buffer : List Str) (term : Str) (cursorX cursorY : Int) (y : Nat) : Option Nat :=
  if (y : Int) = cursorY then strFindInt (buffer.getD y []) term cursorX
  else strFind (buffer.getD y []) term 0

/-- The document `["abc", "xabc"]` with the cursor at the end of the first line. -/
def exFind : TextEditor := ⟨["abc".toList, "xabc".toList], [], 3, 0, false⟩

/-- A 10-character line above a 3-character line, with the cursor at `(0, 5)`. -/
def exMove : TextEditor := ⟨["0123456789".toList, "abc".toList], [], 5, 0, false⟩

/-- The document `["ab", "foo bar foo"]` with the cursor at row 1, column 1. -/
def exReplace : TextEditor := ⟨["ab".toList, "foo bar foo".toList], [], 1, 1, false⟩

/-- Runs of operations: `Steps s t` when `t` is reached from `s` by finitely many operations. -/
inductive Steps : TextEditor → TextEditor → Prop where
  | refl (s : TextEditor) : Steps s s
  | step (s t u : TextEditor) (op : TextEditor.Op) :
      Steps s t → t.applyOp op = some u → Steps s u

/-- The screen cells that a sequence of calls writes, each with the colour pair in force when
it is written; `attr` is the pair in force at the start, `none` for no colour pair.  As in
curses, `attron` of a colour pair replaces the pair in force and `attroff` of a colour pair
leaves none. -/
def paint : Option ColorPair → List Call → List (Option ColorPair × Char)
  | _, [] => []
  | _, .attron p :: cs => paint (some p) cs
  | _, .attroff _ :: cs => paint none cs
  | a, .addch c :: cs => (a, c) :: paint a cs
  | a, .printw w :: cs => w.map (fun c => (a, c)) ++ paint a cs

/-- The cells that `highlightSyntax` writes for a line on a window with no colour pair in
force.  The categories of the specification are the colour pairs: Plain is `none`, Keyword is
`KEYWORD`, Comment is `COMMENT`, StringLiteral is `STRING`. -/
def classify (line : Str) : List (Option ColorPair × Char) := paint none (highlightSyntax line)

/-- The cells written under the other reading of the loop's closing braces. -/
def classifyNested (line : Str) : List (Option ColorPair × Char) :=
  paint none (highlightSyntaxNested line)

/-- The maximal runs of equally coloured neighbouring cells. -/
def runs : List (Option ColorPair × Char) → List (Option ColorPair × Str)
  | [] => []
  | (a, c) :: rest =>
    match runs rest with
    | (b, w) :: rs => if a = b then (a, c :: w) :: rs else (a, [c]) :: (b, w) :: rs
    | [] => [(a, [c])]

/-- The flat text of a document: its lines joined with `'\n'`. -/
def joinLines : List Str → Str
  | [] => []
  | [l] => l
  | l :: l' :: rest => l ++ '\n' :: joinLines (l' :: rest)

/-- The flat text `text(S)` of an editor state. -/
def text (s : TextEditor) : Str := joinLines s.buffer

/-- The document `["ab", "foo bar foo"]` with the cursor at the start of row 1. -/
def exMerge : TextEditor := ⟨["ab".toList, "foo bar foo".toList], [], 0, 1, false⟩

/-- A state with unsaved changes: the constructor's state after `insertChar 'a'`. -/
def exModified : TextEditor := ⟨["a".toList], [], 1, 0, true⟩

/-! ## Lemmas on the string primitives -/

theorem occursAt_iff_startsWith (line term : Str) (i : Nat) :
    OccursAt line term i ↔ i ≤ line.length ∧ term <+: line.drop i := by
  unfold OccursAt
  rw [List.prefix_iff_eq_take]
  constructor
  · rintro ⟨h1, h2⟩
    exact ⟨by omega, h2.symm⟩
  · rintro ⟨h1, h2⟩
    refine ⟨?_, h2.symm⟩
    have h3 := congrArg List.length h2
    rw [List.length_take, List.length_drop] at h3
    omega

theorem occursAt_nil (term : Str) (k : Nat) : OccursAt [] term k ↔ k = 0 ∧ term = [] := by
  unfold OccursAt
  constructor
  · rintro ⟨h1, h2⟩
    simp at h1
    exact ⟨h1.1, h1.2⟩
  · rintro ⟨rfl, rfl⟩
    simp

theorem occursAt_cons_zero (c : Char) (l term : Str) :
    OccursAt (c :: l) term 0 ↔ term.isPrefixOf (c :: l) = true := by
  rw [occursAt_iff_startsWith, List.isPrefixOf_iff_prefix]
  simp

theorem occursAt_cons_succ (c : Char) (l term : Str) (k : Nat) :
    OccursAt (c :: l) term (k + 1) ↔ OccursAt l term k := by
  unfold OccursAt
  rw [List.drop_succ_cons, List.length_cons]
  constructor
  · rintro ⟨h1, h2⟩
    exact ⟨by omega, h2⟩
  · rintro ⟨h1, h2⟩
    exact ⟨by omega, h2⟩

theorem occursAt_drop (line term : Str) (pos k : Nat) (h : pos ≤ line.length) :
    OccursAt (line.drop pos) term k ↔ OccursAt line term (pos + k) := by
  unfold OccursAt
  rw [List.drop_drop, List.length_drop]
  constructor
  · rintro ⟨h1, h2⟩
    exact ⟨by omega, h2⟩
  · rintro ⟨h1, h2⟩
    exact ⟨by omega, h2⟩

theorem findAux_eq_some_iff (term : Str) (l : Str) (i p : Nat) :
    findAux term l i = some p ↔
      ∃ k, p = i + k ∧ OccursAt l term k ∧ ∀ j, j < k → ¬ OccursAt l term j := by
  induction l generalizing i with
  | nil =>
    simp only [findAux, occursAt_nil]
    constructor
    · intro h
      split at h
      · rename_i ht
        refine ⟨0, ?_, ⟨rfl, by simpa using ht⟩, by omega⟩
        simpa using h.symm
      · cases h
    · rintro ⟨k, rfl, ⟨rfl, rfl⟩, -⟩
      simp
  | cons c l ih =>
    simp only [findAux]
    by_cases hp : term.isPrefixOf (c :: l) = true
    · rw [if_pos hp]
      constructor
      · intro h
        refine ⟨0, ?_, (occursAt_cons_zero c l term).mpr hp, by omega⟩
        simpa using h.symm
      · rintro ⟨k, rfl, -, hk⟩
        have : k = 0 := by
          by_contra hne
          exact hk 0 (Nat.pos_of_ne_zero hne) ((occursAt_cons_zero c l term).mpr hp)
        subst this
        rfl
    · rw [if_neg hp, ih]
      constructor
      · rintro ⟨k, rfl, hk1, hk2⟩
        refine ⟨k + 1, by omega, (occursAt_cons_succ c l term k).mpr hk1, ?_⟩
        intro j hj
        cases j with
        | zero => rwa [occursAt_cons_zero]
        | succ j =>
          rw [occursAt_cons_succ]
          exact hk2 j (by omega)
      · rintro ⟨k, rfl, hk1, hk2⟩
        cases k with
        | zero => exact absurd ((occursAt_cons_zero c l term).mp hk1) hp
        | succ k =>
          refine ⟨k, by omega, (occursAt_cons_succ c l term k).mp hk1, ?_⟩
          intro j hj
          have := hk2 (j + 1) (by omega)
          rwa [occursAt_cons_succ] at this

theorem strFind_eq_some_iff (line term : Str) (pos p : Nat) :
    strFind line term pos = some p ↔
      pos ≤ p ∧ OccursAt line term p ∧ ∀ j, pos ≤ j → j < p → ¬ OccursAt line term j := by
  unfold strFind
  by_cases h : pos ≤ line.length
  · rw [if_pos h, findAux_eq_some_iff]
    constructor
    · rintro ⟨k, rfl, hk1, hk2⟩
      refine ⟨by omega, (occursAt_drop line term pos k h).mp hk1, ?_⟩
      intro j hj1 hj2 hocc
      apply hk2 (j - pos) (by omega)
      rw [occursAt_drop line term pos _ h]
      have : pos + (j - pos) = j := by omega
      rwa [this]
    · rintro ⟨h1, h2, h3⟩
      refine ⟨p - pos, by omega, ?_, ?_⟩
      · rw [occursAt_drop line term pos _ h]
        have : pos + (p - pos) = p := by omega
        rwa [this]
      · intro j hj hocc
        rw [occursAt_drop line term pos _ h] at hocc
        exact h3 (pos + j) (by omega) (by omega) hocc
  · rw [if_neg h]
    constructor
    · intro h'
      cases h'
    · rintro ⟨h1, h2, -⟩
      exfalso
      unfold OccursAt at h2
      omega

theorem strFind_eq_none_iff (line term : Str) (pos : Nat) :
    strFind line term pos = none ↔ ∀ j, pos ≤ j → ¬ OccursAt line term j := by
  constructor
  · intro h j hj hocc
    have hex : ∃ p, pos ≤ p ∧ OccursAt line term p := ⟨j, hj, hocc⟩
    classical
    have hmin := Nat.find_spec hex
    have hlt : ∀ m, m < Nat.find hex → ¬ (pos ≤ m ∧ OccursAt line term m) :=
      fun m hm => Nat.find_min hex hm
    have : strFind line term pos = some (Nat.find hex) := by
      rw [strFind_eq_some_iff]
      exact ⟨hmin.1, hmin.2, fun m hm1 hm2 hm3 => hlt m hm2 ⟨hm1, hm3⟩⟩
    rw [h] at this
    cases this
  · intro h
    cases hres : strFind line term pos with
    | none => rfl
    | some p =>
      rw [strFind_eq_some_iff] at hres
      exact absurd hres.2.1 (h p hres.1)

/-! ## Lemmas on the loop of `find` -/

theorem findLoop_succ (buffer : List Str) (term : Str) (cx cy : Int) (n y : Nat) :
    TextEditor.findLoop buffer term cx cy (n + 1) y =
      match rowFind buffer term cx cy y with
      | some p => some (y, p)
      | none => TextEditor.findLoop buffer term cx cy n (y + 1) := rfl

theorem findLoop_eq_some_iff (buffer : List Str) (term : Str) (cx cy : Int) (n y r p : Nat) :
    TextEditor.findLoop buffer term cx cy n y = some (r, p) ↔
      y ≤ r ∧ r < y + n ∧ rowFind buffer term cx cy r = some p ∧
        ∀ y', y ≤ y' → y' < r → rowFind buffer term cx cy y' = none := by
  induction n generalizing y with
  | zero =>
    simp only [TextEditor.findLoop]
    constructor
    · intro h
      cases h
    · rintro ⟨h1, h2, -⟩
      omega
  | succ n ih =>
    rw [findLoop_succ]
    cases hrow : rowFind buffer term cx cy y with
    | some q =>
      simp only [Option.some.injEq, Prod.mk.injEq]
      constructor
      · rintro ⟨rfl, rfl⟩
        exact ⟨le_refl _, by omega, hrow, fun y' h1 h2 => by omega⟩
      · rintro ⟨h1, -, h3, h4⟩
        have hry : r = y := by
          by_contra hne
          have := h4 y (le_refl _) (by omega)
          rw [hrow] at this
          cases this
        subst hry
        rw [hrow] at h3
        exact ⟨rfl, Option.some.inj h3⟩
    | none =>
      simp only
      rw [ih]
      constructor
      · rintro ⟨h1, h2, h3, h4⟩
        refine ⟨by omega, by omega, h3, ?_⟩
        intro y' hy1 hy2
        by_cases hyy : y' = y
        · rw [hyy]
          exact hrow
        · exact h4 y' (by omega) hy2
      · rintro ⟨h1, h2, h3, h4⟩
        have hne : r ≠ y := by
          rintro rfl
          rw [hrow] at h3
          cases h3
        exact ⟨by omega, by omega, h3, fun y' hy1 hy2 => h4 y' (by omega) hy2⟩

theorem findLoop_eq_none_iff (buffer : List Str) (term : Str) (cx cy : Int) (n y : Nat) :
    TextEditor.findLoop buffer term cx cy n y = none ↔
      ∀ y', y ≤ y' → y' < y + n → rowFind buffer term cx cy y' = none := by
  induction n generalizing y with
  | zero =>
    simp only [TextEditor.findLoop, true_iff]
    intro y' h1 h2
    omega
  | succ n ih =>
    rw [findLoop_succ]
    cases hrow : rowFind buffer term cx cy y with
    | some q =>
      constructor
      · intro h
        cases h
      · intro h
        have := h y (le_refl _) (by omega)
        rw [hrow] at this
        cases this
    | none =>
      simp only
      rw [ih]
      constructor
      · intro h y' hy1 hy2
        by_cases hyy : y' = y
        · rw [hyy]
          exact hrow
        · exact h y' (by omega) (by omega)
      · intro h y' hy1 hy2
        exact h y' (by omega) (by omega)

theorem rowFind_eq_some_iff (s : TextEditor) (term : Str) (hx : 0 ≤ s.cursorX) (r p : Nat)
    (hr1 : s.cursorY ≤ (r : Int)) (hr2 : r < s.buffer.length) :
    rowFind s.buffer term s.cursorX s.cursorY r = some p ↔
      ForwardMatch s term r p ∧ ∀ q, q < p → ¬ ForwardMatch s term r q := by
  unfold rowFind ForwardMatch
  by_cases hrc : (r : Int) = s.cursorY
  · rw [if_pos hrc]
    unfold strFindInt
    rw [if_neg (by omega), strFind_eq_some_iff]
    constructor
    · rintro ⟨h1, h2, h3⟩
      refine ⟨⟨hr1, hr2, h2, fun _ => by omega⟩, ?_⟩
      rintro q hq ⟨-, -, hq3, hq4⟩
      exact h3 q (by have := hq4 hrc; omega) hq hq3
    · rintro ⟨⟨-, -, h3, h4⟩, h5⟩
      refine ⟨by have := h4 hrc; omega, h3, ?_⟩
      intro j hj1 hj2 hocc
      exact h5 j hj2 ⟨hr1, hr2, hocc, fun _ => by omega⟩
  · rw [if_neg hrc, strFind_eq_some_iff]
    constructor
    · rintro ⟨-, h2, h3⟩
      refine ⟨⟨hr1, hr2, h2, fun h => absurd h hrc⟩, ?_⟩
      rintro q hq ⟨-, -, hq3, -⟩
      exact h3 q (Nat.zero_le _) hq hq3
    · rintro ⟨⟨-, -, h3, -⟩, h5⟩
      refine ⟨Nat.zero_le _, h3, ?_⟩
      intro j _ hj2 hocc
      exact h5 j hj2 ⟨hr1, hr2, hocc, fun h => absurd h hrc⟩

theorem rowFind_eq_none_iff (s : TextEditor) (term : Str) (hx : 0 ≤ s.cursorX) (r : Nat)
    (hr1 : s.cursorY ≤ (r : Int)) (hr2 : r < s.buffer.length) :
    rowFind s.buffer term s.cursorX s.cursorY r = none ↔ ∀ p, ¬ ForwardMatch s term r p := by
  unfold rowFind ForwardMatch
  by_cases hrc : (r : Int) = s.cursorY
  · rw [if_pos hrc]
    unfold strFindInt
    rw [if_neg (by omega), strFind_eq_none_iff]
    constructor
    · rintro h p ⟨-, -, h3, h4⟩
      exact h p (by have := h4 hrc; omega) h3
    · intro h j hj hocc
      exact h j ⟨hr1, hr2, hocc, fun _ => by omega⟩
  · rw [if_neg hrc, strFind_eq_none_iff]
    constructor
    · rintro h p ⟨-, -, h3, -⟩
      exact h p (Nat.zero_le _) h3
    · intro h j _ hocc
      exact h j ⟨hr1, hr2, hocc, fun h => absurd h hrc⟩

theorem findScan_eq_some_iff (s : TextEditor) (term : Str) (hx : 0 ≤ s.cursorX)
    (hy : 0 ≤ s.cursorY) (r p : Nat) :
    s.findScan term = some (r, p) ↔
      ForwardMatch s term r p ∧
        ∀ r' p', ForwardMatch s term r' p' → r < r' ∨ (r = r' ∧ p ≤ p') := by
  unfold TextEditor.findScan
  rw [if_neg (by omega), findLoop_eq_some_iff]
  constructor
  · rintro ⟨h1, h2, h3, h4⟩
    have hr1 : s.cursorY ≤ (r : Int) := by omega
    have hr2 : r < s.buffer.length := by omega
    rw [rowFind_eq_some_iff s term hx r p hr1 hr2] at h3
    refine ⟨h3.1, ?_⟩
    intro r' p' hm
    have hm' := hm
    obtain ⟨hm1, hm2, -, -⟩ := hm'
    rcases Nat.lt_trichotomy r r' with hlt | heq | hgt
    · exact Or.inl hlt
    · subst heq
      refine Or.inr ⟨rfl, ?_⟩
      by_contra hlt
      exact h3.2 p' (by omega) hm
    · exfalso
      have := h4 r' (by omega) hgt
      rw [rowFind_eq_none_iff s term hx r' hm1 hm2] at this
      exact this p' hm
  · rintro ⟨hm, hmin⟩
    have hm' := hm
    obtain ⟨hm1, hm2, -, -⟩ := hm'
    refine ⟨by omega, by omega, ?_, ?_⟩
    · rw [rowFind_eq_some_iff s term hx r p hm1 hm2]
      refine ⟨hm, ?_⟩
      intro q hq hmq
      rcases hmin r q hmq with h | ⟨-, h⟩ <;> omega
    · intro y' hy1 hy2
      rw [rowFind_eq_none_iff s term hx y' (by omega) (by omega)]
      intro q hmq
      rcases hmin y' q hmq with h | ⟨h, -⟩ <;> omega

theorem findScan_eq_none_iff (s : TextEditor) (term : Str) (hx : 0 ≤ s.cursorX)
    (hy : 0 ≤ s.cursorY) :
    s.findScan term = none ↔ ∀ r p, ¬ ForwardMatch s term r p := by
  unfold TextEditor.findScan
  rw [if_neg (by omega), findLoop_eq_none_iff]
  constructor
  · intro h r p hm
    have hm' := hm
    obtain ⟨hm1, hm2, -, -⟩ := hm'
    have := h r (by omega) (by omega)
    rw [rowFind_eq_none_iff s term hx r hm1 hm2] at this
    exact this p hm
  · intro h y' hy1 hy2
    rw [rowFind_eq_none_iff s term hx y' (by omega) (by omega)]
    exact h y'

/-! ## Lemmas on lists split at the cursor row -/

theorem getD_append_length {α : Type} (pre post : List α) (a d : α) :
    (pre ++ a :: post).getD pre.length d = a := by
  induction pre with
  | nil => rfl
  | cons b pre ih => simpa using ih

theorem set_append_length {α : Type} (pre post : List α) (a v : α) :
    (pre ++ a :: post).set pre.length v = pre ++ v :: post := by
  induction pre with
  | nil => rfl
  | cons b pre ih => simp [ih]

theorem insertIdx_append_length_succ {α : Type} (pre post : List α) (a b : α) :
    (pre ++ a :: post).insertIdx (pre.length + 1) b = pre ++ a :: b :: post := by
  induction pre with
  | nil => simp [List.insertIdx_succ_cons, List.insertIdx_zero]
  | cons c pre ih => simp [List.insertIdx_succ_cons, ih]

theorem eraseIdx_append_length_succ {α : Type} (pre post : List α) (a b : α) :
    (pre ++ a :: b :: post).eraseIdx (pre.length + 1) = pre ++ a :: post := by
  induction pre with
  | nil => rfl
  | cons c pre ih => simp [ih]

/-- A well-formed state is a buffer split at the cursor row with the column inside that row. -/
theorem wf_decompose {s : TextEditor} (h : s.WF) :
    ∃ (pre : List Str) (line : Str) (post : List Str) (x : Nat),
      s = ⟨pre ++ line :: post, s.filename, (x : Int), (pre.length : Int), s.modified⟩ ∧
        x ≤ line.length := by
  obtain ⟨buffer, fn, cx, cy, m⟩ := s
  obtain ⟨h1, h2, h3, h4⟩ := h
  simp only [TextEditor.curLine] at h1 h2 h3 h4
  lift cx to ℕ using h3
  lift cy to ℕ using h1
  have hlt : cy < buffer.length := by exact_mod_cast h2
  refine ⟨buffer.take cy, buffer[cy], buffer.drop (cy + 1), cx, ?_, ?_⟩
  · have h5 : (buffer.take cy).length = cy := by simp [Nat.le_of_lt hlt]
    simp [h5]
  · simp only [Int.toNat_ofNat] at h4
    rw [List.getD_eq_getElem?_getD, List.getElem?_eq_getElem hlt] at h4
    exact_mod_cast h4

theorem wf_split (pre : List Str) (line : Str) (post : List Str) (fn : Str) (x : Nat) (m : Bool)
    (h : x ≤ line.length) :
    TextEditor.WF ⟨pre ++ line :: post, fn, (x : Int), (pre.length : Int), m⟩ := by
  refine ⟨by simp, by simp, by simp, ?_⟩
  simp only [TextEditor.curLine, Int.toNat_ofNat, getD_append_length]
  exact_mod_cast h

/-! ## The operations on a state split at the cursor row -/

theorem not_rowOutOfRange_split (pre : List Str) (line : Str) (post : List Str) (fn : Str)
    (cx : Int) (m : Bool) :
    ¬ TextEditor.rowOutOfRange ⟨pre ++ line :: post, fn, cx, (pre.length : Int), m⟩ := by
  unfold TextEditor.rowOutOfRange
  simp only [List.length_append, List.length_cons, Nat.cast_add, Nat.cast_one]
  omega

theorem curLine_split (pre : List Str) (line : Str) (post : List Str) (fn : Str)
    (cx : Int) (m : Bool) :
    TextEditor.curLine ⟨pre ++ line :: post, fn, cx, (pre.length : Int), m⟩ = line := by
  simp only [TextEditor.curLine, Int.toNat_ofNat, getD_append_length]

theorem insertChar_newline_split (pre : List Str) (line : Str) (post : List Str) (fn : Str)
    (x : Nat) (m : Bool) (h : x ≤ line.length) :
    TextEditor.insertChar ⟨pre ++ line :: post, fn, (x : Int), (pre.length : Int), m⟩ '\n' =
      some ⟨pre ++ line.take x :: line.drop x :: post, fn, 0, (pre.length : Int) + 1, true⟩ := by
  unfold TextEditor.insertChar
  rw [if_neg (not_rowOutOfRange_split _ _ _ _ _ _), curLine_split,
    if_neg (by simp only []; omega), if_pos rfl]
  simp only [Int.toNat_ofNat, set_append_length, insertIdx_append_length_succ]

theorem insertChar_char_split (pre : List Str) (line : Str) (post : List Str) (fn : Str)
    (x : Nat) (m : Bool) (c : Char) (h : x ≤ line.length) (hc : c ≠ '\n') :
    TextEditor.insertChar ⟨pre ++ line :: post, fn, (x : Int), (pre.length : Int), m⟩ c =
      some ⟨pre ++ (line.take x ++ c :: line.drop x) :: post, fn, (x : Int) + 1,
        (pre.length : Int), true⟩ := by
  unfold TextEditor.insertChar
  rw [if_neg (not_rowOutOfRange_split _ _ _ _ _ _), curLine_split,
    if_neg (by simp only []; omega), if_neg hc]
  simp only [Int.toNat_ofNat, set_append_length]

theorem deleteChar_col_split (pre : List Str) (line : Str) (post : List Str) (fn : Str)
    (x : Nat) (m : Bool) (h : x + 1 ≤ line.length) :
    TextEditor.deleteChar
        ⟨pre ++ line :: post, fn, (x : Int) + 1, (pre.length : Int), m⟩ =
      some ⟨pre ++ line.eraseIdx x :: post, fn, (x : Int), (pre.length : Int), true⟩ := by
  unfold TextEditor.deleteChar
  rw [if_neg (not_rowOutOfRange_split _ _ _ _ _ _), curLine_split,
    if_pos (by simp only []; omega), if_neg (by simp only []; omega)]
  simp only [Int.toNat_ofNat, set_append_length, add_sub_cancel_right]

theorem deleteChar_row_split (pre : List Str) (prev line : Str) (post : List Str) (fn : Str)
    (m : Bool) :
    TextEditor.deleteChar
        ⟨pre ++ prev :: line :: post, fn, 0, (pre.length : Int) + 1, m⟩ =
      some ⟨pre ++ (prev ++ line) :: post, fn, (prev.length : Int), (pre.length : Int), true⟩ := by
  have e0 : pre ++ prev :: line :: post = (pre ++ [prev]) ++ line :: post := by simp
  have e1 : (pre.length : Int) + 1 = ((pre ++ [prev]).length : Int) := by simp
  have hrow := not_rowOutOfRange_split (pre ++ [prev]) line post fn 0 m
  have hcur := curLine_split (pre ++ [prev]) line post fn 0 m
  rw [← e0, ← e1] at hrow hcur
  unfold TextEditor.deleteChar
  rw [if_neg hrow, hcur, if_neg (by simp only []; omega), if_pos (by simp only []; omega)]
  have e2 : ((pre.length : Int) + 1).toNat = pre.length + 1 := by omega
  simp only [e2, Nat.add_sub_cancel, getD_append_length, set_append_length,
    eraseIdx_append_length_succ, add_sub_cancel_right]

theorem deleteChar_origin_split (line : Str) (post : List Str) (fn : Str) (m : Bool) :
    TextEditor.deleteChar ⟨line :: post, fn, 0, 0, m⟩ = some ⟨line :: post, fn, 0, 0, true⟩ := by
  have hrow : ¬ TextEditor.rowOutOfRange ⟨line :: post, fn, 0, 0, m⟩ :=
    not_rowOutOfRange_split [] line post fn 0 m
  unfold TextEditor.deleteChar
  rw [if_neg hrow, if_neg (by simp only []; omega), if_neg (by simp only []; omega)]

theorem replace_found_split (pre : List Str) (line : Str) (post : List Str) (fn : Str)
    (x : Nat) (m : Bool) (term r : Str) (p : Nat) (hp : strFind line term x = some p) :
    TextEditor.replace ⟨pre ++ line :: post, fn, (x : Int), (pre.length : Int), m⟩ term r =
      (⟨pre ++ strReplace line p term.length r :: post, fn, (p : Int) + (r.length : Int),
        (pre.length : Int), true⟩, none) := by
  unfold TextEditor.replace
  rw [if_neg (not_rowOutOfRange_split _ _ _ _ _ _), curLine_split]
  have : strFindInt line term (x : Int) = some p := by
    unfold strFindInt
    rw [if_neg (by omega), Int.toNat_ofNat, hp]
  simp only [this, Int.toNat_ofNat, set_append_length]

theorem replace_none (s : TextEditor) (term r : Str) (hrow : ¬ s.rowOutOfRange)
    (hp : strFindInt s.curLine term s.cursorX = none) :
    s.replace term r = (s, some (TextEditor.notFoundMsg term)) := by
  unfold TextEditor.replace
  rw [if_neg hrow]
  simp only [hp]

theorem wf_not_rowOutOfRange {s : TextEditor} (h : s.WF) : ¬ s.rowOutOfRange := by
  unfold TextEditor.rowOutOfRange
  have h1 := h.1
  have h2 := h.2.1
  omega

/-! ## Preservation of the cursor invariant -/

theorem insertChar_wf (s : TextEditor) (h : s.WF) (c : Char) :
    ∃ t, s.insertChar c = some t ∧ t.WF := by
  obtain ⟨pre, line, post, x, hs, hx⟩ := wf_decompose h
  rw [hs]
  by_cases hc : c = '\n'
  · subst hc
    rw [insertChar_newline_split pre line post _ x _ hx]
    refine ⟨_, rfl, ?_⟩
    have := wf_split (pre ++ [line.take x]) (line.drop x) post s.filename 0 true (Nat.zero_le _)
    simpa using this
  · rw [insertChar_char_split pre line post _ x _ c hx hc]
    refine ⟨_, rfl, ?_⟩
    have := wf_split pre (line.take x ++ c :: line.drop x) post s.filename (x + 1) true
      (by simp; omega)
    simpa using this

theorem deleteChar_wf (s : TextEditor) (h : s.WF) : ∃ t, s.deleteChar = some t ∧ t.WF := by
  obtain ⟨pre, line, post, x, hs, hx⟩ := wf_decompose h
  rw [hs]
  cases x with
  | succ x =>
    have := deleteChar_col_split pre line post s.filename x s.modified hx
    rw [Nat.cast_succ, this]
    refine ⟨_, rfl, ?_⟩
    exact wf_split pre (line.eraseIdx x) post s.filename x true
      (by rw [List.length_eraseIdx]; split <;> omega)
  | zero =>
    rcases List.eq_nil_or_concat pre with hpre | ⟨pre', prev, hpre⟩
    · subst hpre
      have := deleteChar_origin_split line post s.filename s.modified
      simp only [List.nil_append, List.length_nil, Nat.cast_zero]
      rw [this]
      refine ⟨_, rfl, ?_⟩
      have := wf_split [] line post s.filename 0 true (Nat.zero_le _)
      simpa using this
    · subst hpre
      have := deleteChar_row_split pre' prev line post s.filename s.modified
      simp only [List.concat_eq_append, List.append_assoc, List.singleton_append,
        List.length_append, List.length_singleton, Nat.cast_add, Nat.cast_one, Nat.cast_zero]
      rw [this]
      refine ⟨_, rfl, ?_⟩
      exact wf_split pre' (prev ++ line) post s.filename prev.length true (by simp)

theorem wrap32_of_inInt (v : Int) (h : inInt v) : wrap32 v = v := by
  unfold inInt at h
  unfold wrap32
  omega

theorem addInt_zero (a : Int) : addInt a 0 = a := by
  unfold addInt
  split_ifs with h
  · rw [add_zero]
    exact wrap32_of_inInt a h.1
  · exact add_zero a

theorem moveCursor_some (s : TextEditor) (dx dy : Int) (h : s.buffer ≠ []) :
    ∃ t, s.moveCursor dx dy = some t ∧ t.buffer = s.buffer ∧ t.modified = s.modified ∧
      t.filename = s.filename ∧
      t.cursorY = clamp (addInt s.cursorY dy) 0 ((s.buffer.length : Int) - 1) ∧
      t.cursorX =
        clamp (addInt s.cursorX dx) 0 ((s.buffer.getD t.cursorY.toNat []).length : Int) := by
  have hlen : 0 < s.buffer.length := List.length_pos.mpr h
  unfold TextEditor.moveCursor
  rw [if_neg h]
  refine ⟨_, rfl, rfl, rfl, rfl, ?_, ?_⟩
  · simp only [clamp]
    split_ifs <;> omega
  · simp only [clamp]
    split_ifs <;> omega

theorem moveCursor_wf (s : TextEditor) (h : s.buffer ≠ []) (dx dy : Int) :
    ∃ t, s.moveCursor dx dy = some t ∧ t.WF := by
  have hlen : 0 < s.buffer.length := List.length_pos.mpr h
  obtain ⟨t, ht, hb, -, -, hy, hx⟩ := moveCursor_some s dx dy h
  refine ⟨t, ht, ?_⟩
  unfold TextEditor.WF TextEditor.curLine
  rw [hb, hy] at *
  rw [hx]
  unfold clamp
  refine ⟨?_, ?_, ?_, ?_⟩ <;> split_ifs <;> omega

theorem find_wf (s : TextEditor) (h : s.WF) (term : Str) : (s.find term).1.WF := by
  unfold TextEditor.find
  cases hscan : s.findScan term with
  | none => exact h
  | some rp =>
    obtain ⟨r, p⟩ := rp
    rw [findScan_eq_some_iff s term h.2.2.1 h.1] at hscan
    obtain ⟨⟨h1, h2, h3, -⟩, -⟩ := hscan
    unfold OccursAt at h3
    refine ⟨?_, ?_, ?_, ?_⟩
    · simp
    · simpa using h2
    · simp
    · simp only [TextEditor.curLine, Int.toNat_ofNat]
      have := h3.1
      omega

theorem replace_wf (s : TextEditor) (h : s.WF) (term r : Str) : (s.replace term r).1.WF := by
  cases hfind : strFindInt s.curLine term s.cursorX with
  | none =>
    rw [replace_none s term r (wf_not_rowOutOfRange h) hfind]
    exact h
  | some p =>
    obtain ⟨pre, line, post, x, hs, hx⟩ := wf_decompose h
    rw [hs] at hfind ⊢
    rw [curLine_split] at hfind
    have hfind' : strFind line term x = some p := by
      unfold strFindInt at hfind
      rw [if_neg (by simp only []; omega)] at hfind
      simpa using hfind
    rw [replace_found_split pre line post _ x _ term r p hfind']
    have hocc := ((strFind_eq_some_iff line term x p).mp hfind').2.1
    unfold OccursAt at hocc
    have := wf_split pre (strReplace line p term.length r) post s.filename (p + r.length) true
      (by unfold strReplace; simp; omega)
    simpa using this

theorem applyOp_wf (s : TextEditor) (h : s.WF) (op : TextEditor.Op) :
    ∃ t, s.applyOp op = some t ∧ t.WF := by
  have hne : s.buffer ≠ [] := by
    intro hnil
    have h1 := h.1
    have h2 := h.2.1
    rw [hnil] at h2
    simp at h2
    omega
  cases op with
  | insertChar c => exact insertChar_wf s h c
  | deleteChar => exact deleteChar_wf s h
  | moveCursor dx dy => exact moveCursor_wf s hne dx dy
  | find term => exact ⟨_, rfl, find_wf s h term⟩
  | replace term r => exact ⟨_, rfl, replace_wf s h term r⟩

/-- C2 (evaluation at the failing inputs). The texts that `highlightSyntax` writes for the line
`x"a"` are `x"a"x`, and for the line `ab c` they are `abab cc`: neither is the line.  Under the
other reading of the loop's closing braces the line `ab c` is written as it stands, and the
line `x"a"` is written as `"a"x`, the pending word after the string. -/
theorem highlightSyntax_not_partition :
    emitted (highlightSyntax "x\"a\"".toList) = "x\"a\"x".toList ∧
    emitted (highlightSyntax "x\"a\"".toList) ≠ "x\"a\"".toList ∧
    emitted (highlightSyntax "ab c".toList) = "abab cc".toList ∧
    emitted (highlightSyntax "ab c".toList) ≠ "ab c".toList ∧
    emitted (highlightSyntaxNested "x\"a\"".toList) = "\"a\"x".toList ∧
    emitted (highlightSyntaxNested "x\"a\"".toList) ≠ "x\"a\"".toList ∧
    emitted (highlightSyntaxNested "ab c".toList) = "ab c".toList := by
  decide

/-- C5. When `term` does not occur on the cursor row at any index not before the cursor column,
`replace term r` shows the not-found message and returns the state it was given: lines, cursor
and `modified` flag are unchanged, wherever else `term` may occur. -/
theorem replace_no_match_noop (s : TextEditor) (term r : Str) (hwf : s.WF)
    (hno : ∀ q : Nat, s.cursorX ≤ (q : Int) → ¬ OccursAt s.curLine term q) :
    s.replace term r = (s, some (TextEditor.notFoundMsg term)) := by
  apply replace_none s term r (wf_not_rowOutOfRange hwf)
  unfold strFindInt
  rw [if_neg (by have := hwf.2.2.1; omega), strFind_eq_none_iff]
  intro j hj
  exact hno j (by have := hwf.2.2.1; omega)

/-- An instance of C5: `bar` occurs on the cursor row of `["ab", "foo bar foo"]` only before
column 9, and `ab` only on another row. -/
theorem replace_no_match_noop_witness :
    OccursAt exReplace.curLine "foo".toList 0 ∧ OccursAt (exReplace.buffer.getD 0 []) "ab".toList 0 ∧
    ({ exReplace with cursorX := 9 }).replace "foo".toList "x".toList =
      ({ exReplace with cursorX := 9 }, some (TextEditor.notFoundMsg "foo".toList)) ∧
    exReplace.replace "ab".toList "x".toList =
      (exReplace, some (TextEditor.notFoundMsg "ab".toList)) :=
  ⟨by decide, by decide,
    replace_no_match_noop { exReplace with cursorX := 9 } "foo".toList "x".toList (by decide)
      (by
        intro q hq1 hq2
        have hq3 : q + 3 ≤ 11 := hq2.1
        simp only at hq1
        omega),
    by decide⟩

/-- C6. For a cursor with non-negative row and column, `find term` shows a message exactly when
`term` has no occurrence on the cursor row at an index not before the column and none on a
later row; then the message is the not-found message and the state is unchanged.  Found or not,
`find` leaves the lines and the `modified` flag unchanged. -/
theorem find_not_found_iff (s : TextEditor) (term : Str) (hx : 0 ≤ s.cursorX)
    (hy : 0 ≤ s.cursorY) :
    ((s.find term).2 ≠ none ↔ ∀ r p, ¬ ForwardMatch s term r p) ∧
      ((∀ r p, ¬ ForwardMatch s term r p) →
        s.find term = (s, some (TextEditor.notFoundMsg term))) ∧
      (s.find term).1.buffer = s.buffer ∧ (s.find term).1.modified = s.modified := by
  cases hscan : s.findScan term with
  | none =>
    have hno := (findScan_eq_none_iff s term hx hy).mp hscan
    have hfind : s.find term = (s, some (TextEditor.notFoundMsg term)) := by
      simp only [TextEditor.find, hscan]
    rw [hfind]
    exact ⟨⟨fun _ => hno, fun _ => by simp⟩, fun _ => rfl, rfl, rfl⟩
  | some rp =>
    obtain ⟨r, p⟩ := rp
    have hm := ((findScan_eq_some_iff s term hx hy r p).mp hscan).1
    have hfind : s.find term = ({ s with cursorY := (r : Int), cursorX := (p : Int) }, none) := by
      simp only [TextEditor.find, hscan]
    rw [hfind]
    exact ⟨⟨fun h => absurd rfl h, fun h => absurd hm (h r p)⟩, fun h => absurd hm (h r p),
      rfl, rfl⟩

/-- Two instances of C6 on `["abc", "xabc"]` with the cursor at `(0, 3)`: `zzz` occurs nowhere,
and `abc` occurs on a later row. -/
theorem find_not_found_iff_witness :
    exFind.find "zzz".toList = (exFind, some (TextEditor.notFoundMsg "zzz".toList)) ∧
    (exFind.find "abc".toList).2 = none ∧
    (((exFind.find "abc".toList).2 ≠ none ↔ ∀ r p, ¬ ForwardMatch exFind "abc".toList r p) ∧
      ((∀ r p, ¬ ForwardMatch exFind "abc".toList r p) →
        exFind.find "abc".toList = (exFind, some (TextEditor.notFoundMsg "abc".toList))) ∧
      (exFind.find "abc".toList).1.buffer = exFind.buffer ∧
      (exFind.find "abc".toList).1.modified = exFind.modified) :=
  ⟨by decide, by decide, find_not_found_iff exFind "abc".toList (by decide) (by decide)⟩

/-- C9 (evaluation at the failing input). At the constructor's state, which is well formed with
the cursor at the origin and `modified = false`, `deleteChar` changes no line and no cursor
field but returns a state with `modified = true`. -/
theorem deleteChar_origin_sets_modified :
    TextEditor.init.WF ∧ TextEditor.init.cursorX = 0 ∧ TextEditor.init.cursorY = 0 ∧
    TextEditor.init.modified = false ∧
    TextEditor.init.deleteChar = some { TextEditor.init with modified := true } ∧
    TextEditor.init.deleteChar ≠ some TextEditor.init := by
  decide

/-- C12 (evaluation at the failing input). For the line `// comment "not a string"` the first
slash is written with no colour pair in force, so it is Plain; every later character, the
second slash and the quotes included, is written under `COMMENT`.  Both readings of the loop's
closing braces agree on this line. -/
theorem comment_first_slash_plain :
    classify "// comment \"not a string\"".toList =
      (none, '/') ::
        "/ comment \"not a string\"".toList.map (fun c => (some ColorPair.COMMENT, c)) ∧
    classify "// comment \"not a string\"".toList ≠
      "// comment \"not a string\"".toList.map (fun c => (some ColorPair.COMMENT, c)) ∧
    classifyNested "// comment \"not a string\"".toList =
      classify "// comment \"not a string\"".toList := by
  decide

/-- C13 (evaluation at the failing inputs). For the line `int x = 1;` the runs written are
Plain `int`, Keyword `int`, Plain ` xx = 11;`, not Keyword `int`, Plain ` x = 1;`: every word
is written once character by character and once more when it is flushed.  Under the other
reading of the loop's closing braces the runs are Keyword `int`, Plain ` x = 1;`.  For the line
`x"` both readings write the word `x`, flushed at the end of the line, under `STRING`, the pair
left in force by the opening quote. -/
theorem keyword_runs_double_emitted :
    runs (classify "int x = 1;".toList) =
      [(none, "int".toList), (some ColorPair.KEYWORD, "int".toList),
        (none, " xx = 11;".toList)] ∧
    runs (classify "int x = 1;".toList) ≠
      [(some ColorPair.KEYWORD, "int".toList), (none, " x = 1;".toList)] ∧
    runs (classifyNested "int x = 1;".toList) =
      [(some ColorPair.KEYWORD, "int".toList), (none, " x = 1;".toList)] ∧
    runs (classify "x\"".toList) = [(none, "x".toList), (some ColorPair.STRING, "\"x".toList)] ∧
    runs (classifyNested "x\"".toList) = [(some ColorPair.STRING, "\"x".toList)] := by
  decide

/-- C14. On a well-formed state `moveCursor 0 0` returns the state it was given, so lines,
cursor row, cursor column and `modified` are unchanged, and applying it twice is the same as
applying it once. -/
theorem moveCursor_zero_identity (s : TextEditor) (hwf : s.WF) :
    s.moveCursor 0 0 = some s ∧
      (s.moveCursor 0 0).bind (fun t => t.moveCursor 0 0) = s.moveCursor 0 0 := by
  have hne : s.buffer ≠ [] := by
    intro hnil
    have h1 := hwf.1
    have h2 := hwf.2.1
    rw [hnil] at h2
    simp at h2
    omega
  have hid : s.moveCursor 0 0 = some s := by
    obtain ⟨h1, h2, h3, h4⟩ := hwf
    unfold TextEditor.curLine at h4
    obtain ⟨buffer, fn, cx, cy, m⟩ := s
    simp only at h1 h2 h3 h4 hne
    unfold TextEditor.moveCursor
    simp only [if_neg hne, addInt_zero]
    have e1 : (if cy < 0 then 0 else cy) = cy := by
      rw [if_neg (by omega)]
    have e2 : (if (buffer.length : Int) ≤ cy then (buffer.length : Int) - 1 else cy) = cy := by
      rw [if_neg (by omega)]
    have e3 : (if cx < 0 then 0 else cx) = cx := by
      rw [if_neg (by omega)]
    simp only [e1, e2, e3]
    rw [if_neg (by omega)]
  refine ⟨hid, ?_⟩
  rw [hid]
  exact hid

/-- An instance of C14 at a 10-character line above a 3-character line with the cursor at
`(0, 5)`, and at the constructor's state. -/
theorem moveCursor_zero_identity_witness :
    TextEditor.init.moveCursor 0 0 = some TextEditor.init ∧
    (exMove.moveCursor 0 0 = some exMove ∧
      (exMove.moveCursor 0 0).bind (fun t => t.moveCursor 0 0) = exMove.moveCursor 0 0) :=
  ⟨by decide, moveCursor_zero_identity exMove (by decide)⟩

/-- An operation that returns a state with `modified = false` was given that flag and has
left the lines alone. -/
theorem applyOp_unflagged (s t : TextEditor) (op : TextEditor.Op)
    (h : s.applyOp op = some t) (hm : t.modified = false) :
    t.buffer = s.buffer ∧ s.modified = false := by
  cases op with
  | insertChar c =>
    simp only [TextEditor.applyOp, TextEditor.insertChar] at h
    split_ifs at h <;> cases h <;> first | exact ⟨rfl, hm⟩ | cases hm
  | deleteChar =>
    simp only [TextEditor.applyOp, TextEditor.deleteChar] at h
    split_ifs at h <;> cases h <;> first | exact ⟨rfl, hm⟩ | cases hm
  | moveCursor dx dy =>
    simp only [TextEditor.applyOp, TextEditor.moveCursor] at h
    split_ifs at h <;> cases h <;> exact ⟨rfl, hm⟩
  | find term =>
    simp only [TextEditor.applyOp, TextEditor.find] at h
    cases hscan : s.findScan term with
    | none =>
      rw [hscan] at h
      cases h
      exact ⟨rfl, hm⟩
    | some rp =>
      rw [hscan] at h
      cases h
      exact ⟨rfl, hm⟩
  | replace term r =>
    simp only [TextEditor.applyOp, TextEditor.replace] at h
    split_ifs at h
    · cases h
      exact ⟨rfl, hm⟩
    · cases hfind : strFindInt s.curLine term s.cursorX with
      | none =>
        rw [hfind] at h
        cases h
        exact ⟨rfl, hm⟩
      | some p =>
        rw [hfind] at h
        cases h
        cases hm

theorem steps_unflagged (s t : TextEditor) (h : Steps s t) (hm : t.modified = false) :
    t.buffer = s.buffer ∧ s.modified = false := by
  induction h with
  | refl => exact ⟨rfl, hm⟩
  | step t u op _ hstep ih =>
    obtain ⟨h1, h2⟩ := applyOp_unflagged t u op hstep hm
    obtain ⟨h3, h4⟩ := ih h2
    exact ⟨h1.trans h3, h4⟩

/-- C15. On a well-formed state each operation returns a state, and when its lines differ from
the lines before, `modified` is true afterwards; so along a run of operations that starts with
`modified = false`, a state with `modified = false` has the lines of the start. -/
theorem content_changes_flagged :
    (∀ s : TextEditor, s.WF → ∀ op : TextEditor.Op,
      ∃ t, s.applyOp op = some t ∧ (t.buffer ≠ s.buffer → t.modified = true)) ∧
    (∀ s t : TextEditor, s.modified = false → Steps s t → t.modified = false →
      t.buffer = s.buffer) := by
  constructor
  · intro s hwf op
    obtain ⟨t, ht, -⟩ := applyOp_wf s hwf op
    refine ⟨t, ht, ?_⟩
    intro hne
    cases hmod : t.modified with
    | true => rfl
    | false => exact absurd (applyOp_unflagged s t op ht hmod).1 hne
  · intro s t _ hsteps hm
    exact (steps_unflagged s t hsteps hm).1

/-- An instance of C15: from the constructor's state, `insertChar 'a'` changes the lines and
sets the flag, and a run `moveCursor 0 0` then `find "a"` keeps both the lines and the flag. -/
theorem content_changes_flagged_witness :
    (∃ t, TextEditor.init.applyOp (.insertChar 'a') = some t ∧
      (t.buffer ≠ TextEditor.init.buffer → t.modified = true)) ∧
    TextEditor.init.applyOp (.insertChar 'a') = some exModified ∧
    (TextEditor.init.find "a".toList).1.buffer = TextEditor.init.buffer :=
  ⟨content_changes_flagged.1 TextEditor.init (by decide) (.insertChar 'a'), by decide,
    content_changes_flagged.2 TextEditor.init _ (by decide)
      (Steps.step _ _ _ (.find "a".toList)
        (Steps.step _ _ _ (.moveCursor 0 0) (Steps.refl _)
          (show TextEditor.init.applyOp (.moveCursor 0 0) = some TextEditor.init by decide))
        rfl)
      (by decide)⟩

/-- C16 (evaluation at the failing input). On a state with `modified = true`, `openFile` of a
file that cannot be opened installs the placeholder line and returns with `modified` still
true; in general that path leaves the flag as it was, while the path that reads the file
clears it. -/
theorem openFile_unopened_keeps_modified :
    exModified.modified = true ∧
    (exModified.openFile "f".toList none).buffer = ["// New file - f".toList] ∧
    (exModified.openFile "f".toList none).modified = true ∧
    (∀ (s : TextEditor) (file : Str), (s.openFile file none).modified = s.modified) ∧
    (∀ (s : TextEditor) (file : Str) (ls : List Str),
      (s.openFile file (some ls)).modified = false) := by
  refine ⟨by decide, by decide, by decide, fun _ _ => rfl, fun _ _ _ => rfl⟩

theorem wf_length_pos {s : TextEditor} (h : s.WF) : 1 ≤ s.buffer.length := by
  have h1 := h.1
  have h2 := h.2.1
  omega

/-- C17. The constructor yields exactly one empty line; `openFile` yields the one placeholder
line when the file cannot be opened, one empty line when it is readable and empty, and the
lines read otherwise, so at least one line in every case; and each of `insertChar`,
`deleteChar`, `moveCursor`, `find` and `replace` on a well-formed state returns a state with at
least one line. -/
theorem document_never_empty :
    TextEditor.init.buffer = [[]] ∧
    (∀ (s : TextEditor) (file : Str),
      (s.openFile file none).buffer = ["// New file - ".toList ++ file]) ∧
    (∀ (s : TextEditor) (file : Str), (s.openFile file (some [])).buffer = [[]]) ∧
    (∀ (s : TextEditor) (file : Str) (ls : List Str), ls ≠ [] →
      (s.openFile file (some ls)).buffer = ls) ∧
    (∀ (s : TextEditor) (file : Str) (content : Option (List Str)),
      1 ≤ (s.openFile file content).buffer.length) ∧
    (∀ s : TextEditor, s.WF →
      (∀ c : Char, ∃ t, s.insertChar c = some t ∧ 1 ≤ t.buffer.length) ∧
      (∃ t, s.deleteChar = some t ∧ 1 ≤ t.buffer.length) ∧
      (∀ dx dy : Int, ∃ t, s.moveCursor dx dy = some t ∧ 1 ≤ t.buffer.length) ∧
      (∀ term : Str, 1 ≤ (s.find term).1.buffer.length) ∧
      (∀ term r : Str, 1 ≤ (s.replace term r).1.buffer.length)) := by
  refine ⟨rfl, fun _ _ => rfl, fun _ _ => rfl, ?_, ?_, ?_⟩
  · intro s file ls hls
    simp only [TextEditor.openFile, if_neg hls]
  · intro s file content
    cases content with
    | none => simp [TextEditor.openFile]
    | some ls =>
      by_cases hls : ls = []
      · simp [TextEditor.openFile, hls]
      · simp only [TextEditor.openFile, if_neg hls]
        exact List.length_pos.mpr hls
  · intro s hwf
    refine ⟨?_, ?_, ?_, ?_, ?_⟩
    · intro c
      obtain ⟨t, ht, hwt⟩ := insertChar_wf s hwf c
      exact ⟨t, ht, wf_length_pos hwt⟩
    · obtain ⟨t, ht, hwt⟩ := deleteChar_wf s hwf
      exact ⟨t, ht, wf_length_pos hwt⟩
    · intro dx dy
      obtain ⟨t, ht, hwt⟩ := applyOp_wf s hwf (.moveCursor dx dy)
      exact ⟨t, ht, wf_length_pos hwt⟩
    · intro term
      exact wf_length_pos (find_wf s hwf term)
    · intro term r
      exact wf_length_pos (replace_wf s hwf term r)

/-- Instances of C17: a line merge at `(1, 0)` of a two-line document leaves one line, and
`openFile` on an empty readable file leaves one empty line. -/
theorem document_never_empty_witness :
    (∃ t, exMerge.deleteChar = some t ∧ 1 ≤ t.buffer.length) ∧
    (exMerge.openFile "f".toList (some [])).buffer = [[]] :=
  ⟨(document_never_empty.2.2.2.2.2 exMerge (by decide)).2.1,
    document_never_empty.2.2.1 exMerge "f".toList⟩

theorem hlStep_in_string (w : Str) (o : List Call) (prev : Option Char) (c : Char)
    (hc : c ≠ '"') :
    hlStep ⟨false, true, w, o⟩ prev c =
      ⟨false, true, w, o ++ [.attron .STRING, .addch c, .attroff .STRING]⟩ := by
  simp [hlStep, hc]

theorem hlStepNested_in_string (w : Str) (o : List Call) (prev : Option Char) (c : Char)
    (hc : c ≠ '"') :
    hlStepNested ⟨false, true, w, o⟩ prev c =
      ⟨false, true, w, o ++ [.attron .STRING, .addch c, .attroff .STRING]⟩ := by
  simp [hlStepNested, hc]

theorem hlLoop_cons (st : HL) (prev : Option Char) (c : Char) (rest : Str) :
    hlLoop st prev (c :: rest) = hlLoop (hlStep st prev c) (some c) rest := rfl

theorem hlLoopNested_cons (st : HL) (prev : Option Char) (c : Char) (rest : Str) :
    hlLoopNested st prev (c :: rest) = hlLoopNested (hlStepNested st prev c) (some c) rest := rfl

theorem hlLoop_in_string (mid : Str) (h : '"' ∉ mid) (w : Str) (o : List Call)
    (prev : Option Char) :
    hlLoop ⟨false, true, w, o⟩ prev (mid ++ ['"']) =
      ⟨false, false, w,
        o ++ (mid.map (fun c => [Call.attron .STRING, .addch c, .attroff .STRING])).flatten ++
          [.attron .STRING, .addch '"', .attroff .STRING]⟩ := by
  induction mid generalizing o prev with
  | nil => simp [hlLoop, hlStep]
  | cons c mid ih =>
    have hc : c ≠ '"' := fun hc => h (by simp [hc])
    have hmid : '"' ∉ mid := fun hm => h (List.mem_cons_of_mem _ hm)
    rw [List.cons_append, hlLoop_cons, hlStep_in_string w o prev c hc, ih hmid]
    simp

theorem hlLoopNested_in_string (mid : Str) (h : '"' ∉ mid) (w : Str) (o : List Call)
    (prev : Option Char) :
    hlLoopNested ⟨false, true, w, o⟩ prev (mid ++ ['"']) =
      ⟨false, false, w,
        o ++ (mid.map (fun c => [Call.attron .STRING, .addch c, .attroff .STRING])).flatten ++
          [.attron .STRING, .addch '"', .attroff .STRING]⟩ := by
  induction mid generalizing o prev with
  | nil => simp [hlLoopNested, hlStepNested]
  | cons c mid ih =>
    have hc : c ≠ '"' := fun hc => h (by simp [hc])
    have hmid : '"' ∉ mid := fun hm => h (List.mem_cons_of_mem _ hm)
    rw [List.cons_append, hlLoopNested_cons, hlStepNested_in_string w o prev c hc, ih hmid]
    simp

theorem paint_in_string (mid : Str) (q : Char) (a : Option ColorPair) :
    paint a ((mid.map (fun c => [Call.attron .STRING, .addch c, .attroff .STRING])).flatten ++
        [.attron .STRING, .addch q, .attroff .STRING]) =
      mid.map (fun c => (some ColorPair.STRING, c)) ++ [(some ColorPair.STRING, q)] := by
  induction mid generalizing a with
  | nil => simp [paint]
  | cons c mid ih => simp [paint, ih]

/-- C18. For a line that is a `"`, then characters none of which is a `"`, then a `"`, every
character of the line, both quotes and any `//` between them included, is written under
`STRING`; the two readings of the loop's closing braces agree. -/
theorem string_literal_classified (mid : Str) (h : '"' ∉ mid) :
    classify ('"' :: mid ++ ['"']) =
        ('"' :: mid ++ ['"']).map (fun c => (some ColorPair.STRING, c)) ∧
      classifyNested ('"' :: mid ++ ['"']) =
        ('"' :: mid ++ ['"']).map (fun c => (some ColorPair.STRING, c)) := by
  constructor
  · have hfirst : hlStep ⟨false, false, [], []⟩ none '"' =
        ⟨false, true, [], [.attron .STRING, .addch '"']⟩ := by
      simp [hlStep]
    have hloop : hlLoop ⟨false, false, [], []⟩ none ('"' :: mid ++ ['"']) =
        ⟨false, false, [],
          [.attron .STRING, .addch '"'] ++
            (mid.map (fun c => [Call.attron .STRING, .addch c, .attroff .STRING])).flatten ++
              [.attron .STRING, .addch '"', .attroff .STRING]⟩ := by
      rw [List.cons_append, hlLoop_cons, hfirst, hlLoop_in_string mid h]
    have hcalls : highlightSyntax ('"' :: mid ++ ['"']) =
        [.attron .STRING, .addch '"'] ++
          (mid.map (fun c => [Call.attron .STRING, .addch c, .attroff .STRING])).flatten ++
            [.attron .STRING, .addch '"', .attroff .STRING] := by
      unfold highlightSyntax
      rw [if_neg (by simp)]
      simp only [hloop, ne_eq, not_true_eq_false, if_false]
    unfold classify
    rw [hcalls]
    simp [paint, paint_in_string]
  · have hfirst : hlStepNested ⟨false, false, [], []⟩ none '"' =
        ⟨false, true, [], [.attron .STRING, .addch '"']⟩ := by
      simp [hlStepNested]
    have hloop : hlLoopNested ⟨false, false, [], []⟩ none ('"' :: mid ++ ['"']) =
        ⟨false, false, [],
          [.attron .STRING, .addch '"'] ++
            (mid.map (fun c => [Call.attron .STRING, .addch c, .attroff .STRING])).flatten ++
              [.attron .STRING, .addch '"', .attroff .STRING]⟩ := by
      rw [List.cons_append, hlLoopNested_cons, hfirst, hlLoopNested_in_string mid h]
    have hcalls : highlightSyntaxNested ('"' :: mid ++ ['"']) =
        [.attron .STRING, .addch '"'] ++
          (mid.map (fun c => [Call.attron .STRING, .addch c, .attroff .STRING])).flatten ++
            [.attron .STRING, .addch '"', .attroff .STRING] := by
      unfold highlightSyntaxNested
      rw [if_neg (by simp)]
      simp only [hloop, ne_eq, not_true_eq_false, if_false]
    unfold classifyNested
    rw [hcalls]
    simp [paint, paint_in_string]

/-- The example of C18: every character of the line `"a//b"` is written under `STRING`. -/
theorem string_literal_classified_witness :
    '"' ∉ "a//b".toList ∧
    classify "\"a//b\"".toList = "\"a//b\"".toList.map (fun c => (some ColorPair.STRING, c)) ∧
    (classify ('"' :: "a//b".toList ++ ['"']) =
        ('"' :: "a//b".toList ++ ['"']).map (fun c => (some ColorPair.STRING, c)) ∧
      classifyNested ('"' :: "a//b".toList ++ ['"']) =
        ('"' :: "a//b".toList ++ ['"']).map (fun c => (some ColorPair.STRING, c))) :=
  ⟨by decide, by decide, string_literal_classified "a//b".toList (by decide)⟩

/-! ## The flat text of a document split at the cursor row -/

end Editor
